import Mathlib

/-!
Verification development for the kometa_mediux_resolver pipeline: asset
ranking, probe cache, resolver normalization, set-id extraction, change
planner and the safe-apply engine. The repository ships the main module
only through its test suite, so every operation below is modelled from the
specification (section references are to spec.md), with signatures and
concrete behaviors cross-checked against the shipped tests.
-/

namespace KMR

/-! ## YAML documents

A parsed YAML/JSON-like document (spec section 3, "Metadata node"): mappings
with string keys, sequences, strings, integers, booleans and null.
-/
/-- Modelled from the spec: a parsed YAML document value (spec section 3);
the main module parses metadata files with yaml.safe_load. -/
inductive Yaml where
  | str (s : String)
  | int (n : Int)
  | bool (b : Bool)
  | null
  | map (entries : List (String × Yaml))
  | arr (items : List Yaml)

/-- Association-list lookup on a mapping's entries (first match wins). -/
def yamlLookup (es : List (String × Yaml)) (k : String) : Option Yaml :=
  (es.find? (fun e => e.1 = k)).map (fun e => e.2)

/-- Resolve a path (sequence of string keys) from a node, walking only
through mapping values (spec section 3: list elements are not descended). -/
def resolvePath : Yaml → List String → Option Yaml
  | y, [] => some y
  | Yaml.map es, k :: ks =>
    match yamlLookup es k with
    | some v => resolvePath v ks
    | none => none
  | _, _ :: _ => none

/-- Whether the node at `p` is a mapping that carries field `f`. -/
def hasFieldAt (y : Yaml) (p : List String) (f : String) : Bool :=
  match resolvePath y p with
  | some (Yaml.map es) => (yamlLookup es f).isSome
  | _ => false

/-- Whether `p` resolves to a mapping lacking every field in `fs`
(spec section 4.6 step 3: the insertion-point re-validation). -/
def isMapLackingAt (y : Yaml) (p : List String) (fs : List String) : Bool :=
  match resolvePath y p with
  | some (Yaml.map es) => fs.all (fun f => (yamlLookup es f).isNone)
  | _ => false

/-- Insert string-valued fields into the mapping at `p`; if `p` does not
resolve to a mapping the document is returned unchanged (the Apply Engine
only applies a change whose path still resolves, spec section 4.6 step 3). -/
def insertAt : Yaml → List String → List (String × String) → Yaml
  | Yaml.map es, [], adds => Yaml.map (es ++ adds.map (fun a => (a.1, Yaml.str a.2)))
  | Yaml.map es, k :: ks, adds =>
    Yaml.map (es.map (fun e => if e.1 = k then (e.1, insertAt e.2 ks adds) else e))
  | y, _, _ => y

/-! ## UUID discovery -/
/-- Hexadecimal digit test. -/
def isHexChar (c : Char) : Bool :=
  c.isDigit || ('a' ≤ c && c ≤ 'f') || ('A' ≤ c && c ≤ 'F')

/-- Modelled from the spec: a UUID-shaped string (8-4-4-4-12 hexadecimal
groups), the fallback identifier shape of spec section 4.3. -/
def isUUIDStr (s : String) : Bool :=
  let cs := s.toList
  cs.length = 36 &&
    cs.enum.all (fun ic =>
      if ic.1 = 8 || ic.1 = 13 || ic.1 = 18 || ic.1 = 23 then ic.2 = '-'
      else isHexChar ic.2)

mutual
/-- Modelled from the spec: depth-first scan of nested values for a
UUID-shaped string (spec sections 3 and 4.3, identifier fallback). -/
def uuidScan : Yaml → Option String
  | Yaml.str s => if isUUIDStr s then some s else none
  | Yaml.map es => uuidScanEntries es
  | Yaml.arr xs => uuidScanItems xs
  | _ => none

/-- Scan a mapping's values for a UUID-shaped string. -/
def uuidScanEntries : List (String × Yaml) → Option String
  | [] => none
  | e :: rest =>
    match uuidScan e.2 with
    | some s => some s
    | none => uuidScanEntries rest

/-- Scan a sequence's items for a UUID-shaped string. -/
def uuidScanItems : List Yaml → Option String
  | [] => none
  | v :: rest =>
    match uuidScan v with
    | some s => some s
    | none => uuidScanItems rest
end

/-! ## First-seen deduplication -/
/-- Remove duplicates keeping the first occurrence of each element not yet
in `seen`. -/
def dedupFirstAux (seen : List String) : List String → List String
  | [] => []
  | x :: xs =>
    if x ∈ seen then dedupFirstAux seen xs
    else x :: dedupFirstAux (x :: seen) xs

/-- Remove duplicates keeping the first occurrence of each element. -/
def dedupFirst (l : List String) : List String := dedupFirstAux [] l

/-! ## Set-id extraction (YAML Tree Walker, spec section 4.4) -/
/-- The hostname-qualified marker preceding a set identifier in a MediUX
set URL (spec section 4.4: path `/sets/<digits>` under the MediUX host). -/
def setUrlMarker : List Char := "mediux.pro/sets/".toList

/-- Modelled from the spec: scan raw text for every occurrence of the
MediUX set URL pattern, collecting the digit run after each marker
occurrence, in encounter order (spec section 4.4, `find_set_ids`). -/
def scanSetIds : List Char → List String
  | [] => []
  | c :: cs =>
    if setUrlMarker.isPrefixOf (c :: cs) then
      if (((c :: cs).drop setUrlMarker.length).takeWhile Char.isDigit).isEmpty then
        scanSetIds cs
      else
        (((c :: cs).drop setUrlMarker.length).takeWhile Char.isDigit).asString :: scanSetIds cs
    else scanSetIds cs

/-- Modelled from the spec: `find_set_ids_in_text` returns the set
identifiers found in the text, first-seen order, duplicates removed
(spec section 4.4). -/
def find_set_ids_in_text (t : String) : List String :=
  dedupFirst (scanSetIds t.toList)

/-! ## Asset Ranker (spec section 4.1) -/
/-- Boolean substring containment on character lists. -/
def containsSub : List Char → List Char → Bool
  | needle, [] => needle.isEmpty
  | needle, c :: t => needle.isPrefixOf (c :: t) || containsSub needle t

/-- Modelled from the spec: a normalized asset record (spec section 3):
best-effort `id`, `type` and `name` extractions plus the raw upstream
mapping. -/
structure Asset where
  id : Option String := none
  type : Option String := none
  name : Option String := none
  raw : Yaml := Yaml.map []

/-- Modelled from the spec: the derivable identifier of an asset record: a
direct id-like field, else a UUID-shaped token discovered inside the raw
nested values (spec sections 3 and 4.1). -/
def deriveId (a : Asset) : Option String :=
  match a.id with
  | some i => some i
  | none => uuidScan a.raw

/-- Modelled from the spec: case-insensitive keyword classification, the
three keyword tiers of spec section 4.1: `title_card`/`title-card`, then
`poster`, then `backdrop`; anything else is unmatched. -/
def keywordTier (s : String) : Option Nat :=
  if containsSub "title_card".toList (s.toList.map Char.toLower) ||
      containsSub "title-card".toList (s.toList.map Char.toLower) then some 0
  else if containsSub "poster".toList (s.toList.map Char.toLower) then some 1
  else if containsSub "backdrop".toList (s.toList.map Char.toLower) then some 2
  else none

/-- Modelled from the spec: classification of one asset: first inspect the
`type` field; when absent or unmatched, fall back to substring search in
the `name` field; unmatched assets land in the final tier (spec
section 4.1). -/
def assetTier (a : Asset) : Nat :=
  match a.type with
  | some t =>
    match keywordTier t with
    | some n => n
    | none =>
      match a.name with
      | some nm => (keywordTier nm).getD 3
      | none => 3
  | none =>
    match a.name with
    | some nm => (keywordTier nm).getD 3
    | none => 3

/-- The ordered size-like field names looked up in the raw record (spec
section 4.1, file-size tie-break; the raw records carry `fileSize`). -/
def sizeFieldNames : List String := ["fileSize", "file_size", "size"]

/-- First integer value among the given field names. -/
def firstIntField (es : List (String × Yaml)) : List String → Option Int
  | [] => none
  | k :: ks =>
    match yamlLookup es k with
    | some (Yaml.int n) => some n
    | _ => firstIntField es ks

/-- Modelled from the spec: the file-size secondary key of spec
section 4.1: a positive file size participates in the within-tier order;
a missing, zero or negative size is neutral (key 0). -/
def sizeKey (a : Asset) : Nat :=
  match a.raw with
  | Yaml.map es =>
    match firstIntField es sizeFieldNames with
    | some n => n.toNat
    | none => 0
  | _ => 0

/-- The (tier, size key, id) triples of the assets carrying a derivable
identifier, in input order. -/
def rankedPairs (assets : List Asset) : List (Nat × Nat × String) :=
  assets.filterMap
    (fun a => (deriveId a).map (fun i => (assetTier a, sizeKey a, i)))

/-- Insert a ranked entry into a size-descending block, after every entry
with a strictly larger size key; entries with an equal or smaller key stay
behind it, so equal keys keep input order (spec section 4.1: sizes that
are equal or neutral never cause an ordering inversion). -/
def insertBySize (x : Nat × Nat × String) :
    List (Nat × Nat × String) → List (Nat × Nat × String)
  | [] => [x]
  | q :: rest =>
    if x.2.1 < q.2.1 then q :: insertBySize x rest
    else x :: q :: rest

/-- Stable insertion sort of a tier block by descending size key (spec
section 4.1: a positive file size participates as a secondary key). -/
def sortBySize : List (Nat × Nat × String) → List (Nat × Nat × String)
  | [] => []
  | x :: rest => insertBySize x (sortBySize rest)

/-- One tier's block: the entries of that tier, size-sorted stably. -/
def tierBlock (ps : List (Nat × Nat × String)) (v : Nat) :
    List (Nat × Nat × String) :=
  sortBySize (ps.filter (fun p => p.1 = v))

/-- Stable arrangement of the entries by tier, each tier block ordered by
descending size key and otherwise keeping input order (spec section 4.1).
-/
def tierConcat (ps : List (Nat × Nat × String)) : List (Nat × Nat × String) :=
  tierBlock ps 0 ++ tierBlock ps 1 ++ tierBlock ps 2 ++ tierBlock ps 3

/-- Modelled from the spec: `pick_best_asset` ranks asset records by the
tier classification with the file-size secondary key within each tier,
stable otherwise, dropping records with no derivable identifier and never
repeating an identifier (spec section 4.1). -/
def pick_best_asset (assets : List Asset) : List String :=
  dedupFirst ((tierConcat (rankedPairs assets)).map (fun p => p.2.2))

/-! ## Probe Cache (spec section 4.2)

The persistent store holds one logical row per URL; `set` upserts with the
current timestamp and `get` treats stale rows as absent without deleting
them (spec section 3, "Cache entry"). Time is passed explicitly.
-/
/-- Modelled from the spec: one probe-cache row (spec section 3): URL,
write timestamp, last-known status and body/content-type. -/
structure CacheEntry where
  url : String
  timestamp : Nat
  status : Nat
  body : String

/-- The probe store: newest row first; lookup takes the first (most
recent) row for a URL, which models the keyed upsert. -/
abbrev Cache : Type := List (String × CacheEntry)

/-- Most recent row for a URL. -/
def cacheLookup (c : Cache) (url : String) : Option CacheEntry :=
  ((List.find? (fun e => e.1 = url)) c).map (fun e => e.2)

/-- Modelled from the spec: `set_cached_probe` upserts an entry with the
current timestamp (spec section 4.2). -/
def set_cached_probe (c : Cache) (now : Nat) (url : String) (status : Nat)
    (body : String) : Cache :=
  ((url, ⟨url, now, status, body⟩) :: c : List (String × CacheEntry))

/-- Modelled from the spec: `get_cached_probe` returns the most recent
entry for a URL when its age is within `maxAge`, else null, silently; the
store is a read-only input here, which renders the spec's "stale entries
are treated as absent, not deleted eagerly" and makes repeated calls
trivially agree (spec sections 4.2 and 3). -/
def get_cached_probe (c : Cache) (now : Nat) (url : String) (maxAge : Nat) :
    Option CacheEntry :=
  match cacheLookup c url with
  | some e => if now - e.timestamp ≤ maxAge then some e else none
  | none => none

/-! ## Activity tracking (spec section 5) -/
/-- Modelled from the spec: the liveness counter: monotonic count plus
last-touch timestamp (spec section 5). -/
structure Activity where
  count : Nat
  ts : Nat

/-- Modelled from the spec: `touch_activity` adds the increment to the
count and refreshes the last-touch timestamp to the current time (spec
section 5). -/
def touch_activity (a : Activity) (inc : Nat) (now : Nat) : Activity :=
  ⟨a.count + inc, now⟩

/-- Modelled from the spec: the snapshot accessor returning
`(count, timestamp)` (spec section 5). -/
def get_activity_snapshot (a : Activity) : Nat × Nat :=
  (a.count, a.ts)

/-- Run a sequence of touches, each carrying its increment and the clock
reading at which it happens. -/
def runTouches (a : Activity) : List (Nat × Nat) → Activity
  | [] => a
  | e :: rest => runTouches (touch_activity a e.1 e.2) rest

/-! ## Asset Resolver (spec section 4.3) -/
/-- The outcome of the HTTP GET issued by the resolver: a response with a
status and a decoded JSON body (none = decode failure), or a transport
error (timeout, connection refused). -/
inductive NetResult where
  | response (status : Nat) (body : Option Yaml)
  | netError (msg : String)

/-- The ordered id-like field names tried first for an identifier
(spec section 4.3). -/
def idFieldNames : List String := ["id", "uuid", "asset_id"]

/-- The ordered name-like field names (spec section 3, best-effort `name`
extraction). -/
def nameFieldNames : List String := ["name", "filename", "title"]

/-- The ordered type-like field names (spec section 3, best-effort `type`
extraction, including nested `fileType`). -/
def typeFieldNames : List String := ["type", "asset_type", "fileType"]

/-- First string value among the given field names. -/
def firstStringField (es : List (String × Yaml)) : List String → Option String
  | [] => none
  | k :: ks =>
    match yamlLookup es k with
    | some (Yaml.str s) => some s
    | _ => firstStringField es ks

/-- Modelled from the spec: normalize one raw response element into an
asset record: identifier from the first id-like field, else a UUID-shaped
token discovered in nested values; records with no identifier are dropped
and non-mapping elements are skipped (spec sections 3 and 4.3). -/
def normalizeAsset (y : Yaml) : Option Asset :=
  match y with
  | Yaml.map es =>
    match
      (match firstStringField es idFieldNames with
        | some i => some i
        | none => uuidScanEntries es) with
    | some i =>
      some ⟨some i, firstStringField es typeFieldNames,
        firstStringField es nameFieldNames, Yaml.map es⟩
    | none => none
  | _ => none

/-- Modelled from the spec: accept the response shapes transparently: a
top-level `assets` list, a `data.assets` list, a `data` list, or the whole
response being a list (spec section 4.3). -/
def extractAssetList (j : Yaml) : List Yaml :=
  match j with
  | Yaml.arr xs => xs
  | Yaml.map es =>
    match yamlLookup es "assets" with
    | some (Yaml.arr xs) => xs
    | _ =>
      match yamlLookup es "data" with
      | some (Yaml.map des) =>
        match yamlLookup des "assets" with
        | some (Yaml.arr xs) => xs
        | _ => []
      | some (Yaml.arr xs) => xs
      | _ => []
  | _ => []

/-- HTTP success (2xx) test. -/
def httpSuccess (s : Nat) : Bool := 200 ≤ s && s < 300

/-- Modelled from the spec: `fetch_set_assets` returns the normalized
asset records of the listing response; any network error, non-success
status or JSON-decode failure yields the empty list, and the function is
total, so no exception can reach the caller (spec section 4.3). -/
def fetch_set_assets (r : NetResult) : List Asset :=
  match r with
  | NetResult.netError _ => []
  | NetResult.response s body =>
    if httpSuccess s then
      match body with
      | some j => (extractAssetList j).filterMap normalizeAsset
      | none => []
    else []

/-- Modelled from the spec: `construct_asset_url` joins the base and the
identifier under an `/assets/` segment, normalizing exactly one trailing
slash on the base (spec section 4.3). -/
def construct_asset_url (apiBase : String) (assetId : String) : String :=
  (if apiBase.toList.getLast? = some '/' then String.mk apiBase.toList.dropLast
    else apiBase) ++ "/assets/" ++ assetId

/-! ## YAML Tree Walker: metadata paths (spec section 4.4) -/
mutual
/-- Modelled from the spec: depth-first traversal yielding `(path, node)`
for the root and every nested mapping reachable via mapping values;
sequence values are not recursed into and non-mapping input yields the
empty list (spec section 4.4, `gather_metadata_paths`). -/
def gatherPaths : Yaml → List (List String × Yaml)
  | Yaml.map es => ([], Yaml.map es) :: gatherPathsEntries es
  | _ => []

/-- Traverse a mapping's entries, prefixing each discovered path with the
entry key. -/
def gatherPathsEntries : List (String × Yaml) → List (List String × Yaml)
  | [] => []
  | e :: rest =>
    (gatherPaths e.2).map (fun pn => (e.1 :: pn.1, pn.2)) ++
      gatherPathsEntries rest
end

/-- Modelled from the spec: `gather_yaml_metadata_paths` (spec
section 4.4). -/
def gather_yaml_metadata_paths (y : Yaml) : List (List String × Yaml) :=
  gatherPaths y

/-! ## Change Planner and Apply Engine (spec sections 4.5 and 4.6) -/
/-- Modelled from the spec: a recorded probe result: the HTTP status
(none = transport error) and the response body (spec section 3,
"Proposed change"). -/
structure ProbeInfo where
  status : Option Nat
  body : String

/-- Whether a recorded probe result indicates a reachable (HTTP success)
URL (spec section 3: a change is only confirmed by a successful probe). -/
def probeOk : Option ProbeInfo → Bool
  | some r =>
    match r.status with
    | some s => httpSuccess s
    | none => false
  | none => false

/-- Modelled from the spec: a proposed change: a path under the metadata
section, the fields to add (asset-URL strings) and the justifying probe
result (spec section 3). -/
structure Change where
  path : List String
  add : List (String × String)
  probe : Option ProbeInfo

/-- Modelled from the spec: the per-file plan produced by the Change
Planner (spec section 4.5). -/
structure Plan where
  file : String
  set_ids : List String
  changes : List Change

/-- The outcome of reading and decoding a metadata file: the file can be
missing, undecodable (binary), unparsable as YAML, or parsed. -/
inductive FileRead where
  | missing
  | undecodable
  | unparsable (raw : String)
  | parsed (raw : String) (doc : Yaml)

/-- The `metadata` section of a parsed document, when present. -/
def metadataSection (doc : Yaml) : Option Yaml :=
  match doc with
  | Yaml.map es => yamlLookup es "metadata"
  | _ => none

/-- Modelled from the spec: `propose_changes_for_file`: a missing file
raises a file-not-found condition (the `Except.error` outcome); parse
failure, decode failure or absence of a recognizable metadata section
returns null; otherwise each metadata node lacking the target field is
resolved via the Resolver, ranked, and the top candidate's constructed URL
probed; zero resolvable changes yield null rather than an empty plan
(spec sections 4.5 and 7). -/
def propose_changes_for_file (file : String) (fr : FileRead)
    (fetchAssets : String → List Asset) (probe : String → ProbeInfo)
    (apiBase : String) : Except String (Option Plan) :=
  match fr with
  | FileRead.missing => Except.error "FileNotFoundError"
  | FileRead.undecodable => Except.ok none
  | FileRead.unparsable _ => Except.ok none
  | FileRead.parsed raw doc =>
    match metadataSection doc with
    | some (Yaml.map metaEs) =>
      match find_set_ids_in_text raw with
      | [] => Except.ok none
      | sid :: rest =>
        let targets := (gatherPaths (Yaml.map metaEs)).filter (fun pn =>
          match pn.2 with
          | Yaml.map es => (yamlLookup es "url_poster").isNone
          | _ => false)
        let changes := targets.filterMap (fun pn =>
          match pick_best_asset (fetchAssets sid) with
          | [] => none
          | top :: _ =>
            some ⟨pn.1, [("url_poster", construct_asset_url apiBase top)],
              some (probe (construct_asset_url apiBase top))⟩)
        if changes.isEmpty then Except.ok none
        else Except.ok (some ⟨file, sid :: rest, changes⟩)
    | _ => Except.ok none

/-- On-disk content of one file: either it parses to a document or it does
not. The Apply Engine re-serializes whole documents, so content is
represented at document granularity. -/
inductive FileContent where
  | parsed (doc : Yaml)
  | unparsable (raw : String)

/-- The scanned tree: an association list from path to content, newest
binding first. -/
abbrev FS : Type := List (String × FileContent)

/-- Current content at a path. -/
def fsGet (fs : FS) (path : String) : Option FileContent :=
  ((List.find? (fun e => e.1 = path)) fs).map (fun e => e.2)

/-- Write content at a path. -/
def fsSet (fs : FS) (path : String) (c : FileContent) : FS :=
  ((path, c) :: fs : List (String × FileContent))

/-- File system plus the backup ledger: backup files are distinctly named
siblings (`<original>.bak.<suffix>`, spec section 3) and never shadow a
target file, so they are tracked separately. -/
structure FState where
  files : FS
  backups : List (String × FileContent)

/-- Modelled from the spec: one change set of the Apply Engine's input:
the target file and its proposed changes (spec section 4.6). -/
structure ChangeSet where
  file : String
  changes : List Change

/-- The failure injections of one apply run: whether the backup step fails
for a file, whether the write step fails, whether schema validation
rejects the merged document, and what a failed write leaves on disk
(spec sections 4.6 and 7). -/
structure ApplyEnv where
  backupFails : String → Bool
  writeFails : String → Bool
  schemaRejects : Yaml → Bool
  failedWriteResult : String → FileContent
  backupSuffix : String

/-- Modelled from the spec: step-3 re-validation of one proposed change
against the current on-disk document: its path must still resolve to a
mapping (under the metadata section) lacking the target fields, and under
`require_probe_ok` its recorded probe must indicate success (spec
section 4.6 step 3). -/
def applicableChange (doc : Yaml) (requireProbeOk : Bool) (c : Change) : Bool :=
  isMapLackingAt doc ("metadata" :: c.path) (c.add.map (fun a => a.1)) &&
    (!requireProbeOk || probeOk c.probe)

/-- Apply the surviving changes to the parsed document. -/
def applyAdds (doc : Yaml) (cs : List Change) : Yaml :=
  cs.foldl (fun d c => insertAt d ("metadata" :: c.path) c.add) doc

/-- Backup file name: a timestamped sibling (spec section 3). -/
def backupName (file suffix : String) : String := file ++ ".bak." ++ suffix

/-- Record the pre-write content in the backup ledger. -/
def addBackup (st : FState) (name : String) (doc : Yaml) : FState :=
  ⟨st.files, (name, FileContent.parsed doc) :: st.backups⟩

/-- Modelled from the spec: steps 5 and 6 of the Apply Engine: schema
rejection aborts the write leaving the file untouched; a failed write is
restored from the backup when one was made, else the file is left however
the failed write left it; a successful write commits the patched document
(spec section 4.6 steps 5 and 6). -/
def doWrite (env : ApplyEnv) (st : FState) (file : String) (doc patched : Yaml)
    (backupMade : Bool) : FState :=
  if env.schemaRejects patched then st
  else if env.writeFails file then
    if backupMade then ⟨fsSet st.files file (FileContent.parsed doc), st.backups⟩
    else ⟨fsSet st.files file (env.failedWriteResult file), st.backups⟩
  else ⟨fsSet st.files file (FileContent.parsed patched), st.backups⟩

/-- Modelled from the spec: the Apply Engine on one change set: dry-run
performs no mutation; a missing or unparsable target file is skipped; the
changes are re-validated against current content; when any change remains,
a best-effort backup is taken (its failure does not block the write) and
the patched document is written per `doWrite` (spec section 4.6). -/
def applyChangeSet (env : ApplyEnv) (st : FState) (cset : ChangeSet)
    (applyFlag createBackup requireProbeOk : Bool) : FState :=
  if applyFlag = false then st
  else
    match fsGet st.files cset.file with
    | some (FileContent.parsed doc) =>
      if ((cset.changes.filter (applicableChange doc requireProbeOk)).isEmpty : Bool) then st
      else
        doWrite env
          (if createBackup && !(env.backupFails cset.file) then
            addBackup st (backupName cset.file env.backupSuffix) doc
          else st)
          cset.file doc
          (applyAdds doc (cset.changes.filter (applicableChange doc requireProbeOk)))
          (createBackup && !(env.backupFails cset.file))
    | _ => st

/-- Modelled from the spec: `apply_changes` processes the change sets in
order (spec section 4.6). -/
def apply_changes (env : ApplyEnv) (st : FState) (csets : List ChangeSet)
    (applyFlag createBackup requireProbeOk : Bool) : FState :=
  csets.foldl
    (fun s cs => applyChangeSet env s cs applyFlag createBackup requireProbeOk) st

/-! ## Concrete fixtures (mirroring the shipped test suite's inputs) -/

/-- The test suite's metadata document `{metadata: {123456: {title: Test
Show}}}`. -/
def sampleDoc : Yaml :=
  Yaml.map [("metadata", Yaml.map [("123456",
    Yaml.map [("title", Yaml.str "Test Show")])])]

/-- A proposed change justified by a successful probe. -/
def sampleChangeOk : Change :=
  ⟨["123456"], [("url_poster", "https://example.com/poster.jpg")],
    some ⟨some 200, "OK"⟩⟩

/-- A proposed change whose recorded probe failed with status 404. -/
def sampleChange404 : Change :=
  ⟨["123456"], [("url_poster", "https://example.com/poster.jpg")],
    some ⟨some 404, "Not Found"⟩⟩

/-- An environment where every write fails and every backup succeeds. -/
def sampleEnvWriteFail : ApplyEnv :=
  ⟨fun _ => false, fun _ => true, fun _ => false,
    fun _ => FileContent.unparsable "partial", "1700000000"⟩

/-- An environment with no injected failures. -/
def sampleEnvOk : ApplyEnv :=
  ⟨fun _ => false, fun _ => false, fun _ => false,
    fun _ => FileContent.unparsable "partial", "1700000000"⟩

/-- A file system holding the sample document at `test.yml`. -/
def sampleState : FState :=
  ⟨[("test.yml", FileContent.parsed sampleDoc)], []⟩

/-- The test suite's title-card/poster asset pair. -/
def sampleAssets : List Asset :=
  [⟨some "title-1", some "title_card", some "title.jpg", Yaml.map []⟩,
    ⟨some "poster-1", some "poster", some "poster.jpg", Yaml.map []⟩]

theorem mem_dedupFirstAux (l : List String) :
    ∀ (seen : List String) (x : String),
      x ∈ dedupFirstAux seen l ↔ x ∈ l ∧ x ∉ seen := by
  induction l with
  | nil => simp [dedupFirstAux]
  | cons h t ih =>
    intro seen x
    rw [dedupFirstAux]
    by_cases hs : h ∈ seen
    · rw [if_pos hs, ih]
      constructor
      · rintro ⟨hm, hn⟩; exact ⟨List.mem_cons_of_mem _ hm, hn⟩
      · rintro ⟨hm, hn⟩
        rcases List.mem_cons.mp hm with rfl | hm'
        · exact absurd hs hn
        · exact ⟨hm', hn⟩
    · rw [if_neg hs]
      simp only [List.mem_cons, ih, List.mem_cons]
      constructor
      · rintro (rfl | ⟨hm, hn⟩)
        · exact ⟨Or.inl rfl, hs⟩
        · exact ⟨Or.inr hm, fun hcon => hn (Or.inr hcon)⟩
      · rintro ⟨rfl | hm, hn⟩
        · exact Or.inl rfl
        · by_cases hxh : x = h
          · exact Or.inl hxh
          · exact Or.inr ⟨hm, fun hcon => hcon.elim hxh hn⟩

theorem mem_dedupFirst (l : List String) (x : String) :
    x ∈ dedupFirst l ↔ x ∈ l := by
  rw [dedupFirst, mem_dedupFirstAux]
  simp

theorem dedupFirstAux_sublist (l : List String) :
    ∀ seen : List String, (dedupFirstAux seen l).Sublist l := by
  induction l with
  | nil => intro _; simp [dedupFirstAux]
  | cons h t ih =>
    intro seen
    rw [dedupFirstAux]
    by_cases hs : h ∈ seen
    · rw [if_pos hs]; exact (ih seen).trans (List.sublist_cons_self h t)
    · rw [if_neg hs]; exact (ih (h :: seen)).cons₂ h

theorem dedupFirst_sublist (l : List String) : (dedupFirst l).Sublist l :=
  dedupFirstAux_sublist l []

theorem dedupFirstAux_nodup (l : List String) :
    ∀ seen : List String, (dedupFirstAux seen l).Nodup := by
  induction l with
  | nil => intro _; simp [dedupFirstAux]
  | cons h t ih =>
    intro seen
    rw [dedupFirstAux]
    by_cases hs : h ∈ seen
    · rw [if_pos hs]; exact ih seen
    · rw [if_neg hs]
      refine List.nodup_cons.mpr ⟨?_, ih (h :: seen)⟩
      intro hmem
      exact ((mem_dedupFirstAux t (h :: seen) h).mp hmem).2 (List.mem_cons_self h seen)

theorem dedupFirst_nodup (l : List String) : (dedupFirst l).Nodup :=
  dedupFirstAux_nodup l []

/-- Elements drawn from the first block of a concatenation come out of the
deduplication strictly before elements found only in the second block. -/
theorem dedupFirstAux_order (l1 : List String) :
    ∀ (l2 seen : List String) (x y : String),
      x ∈ l1 → x ∉ seen → y ∉ l1 → y ∉ seen → y ∈ l2 →
      [x, y].Sublist (dedupFirstAux seen (l1 ++ l2)) := by
  induction l1 with
  | nil => intro _ _ _ _ hx; simp at hx
  | cons h t ih =>
    intro l2 seen x y hx hxs hy hys hy2
    rw [List.cons_append, dedupFirstAux]
    have hyh : y ≠ h := fun hcon => hy (hcon ▸ List.mem_cons_self h t)
    by_cases hs : h ∈ seen
    · rw [if_pos hs]
      have hxt : x ∈ t := by
        rcases List.mem_cons.mp hx with rfl | hm
        · exact absurd hs hxs
        · exact hm
      exact ih l2 seen x y hxt hxs (fun hc => hy (List.mem_cons_of_mem _ hc)) hys hy2
    · rw [if_neg hs]
      by_cases hxh : x = h
      · subst hxh
        refine List.cons_sublist_cons.mpr ?_
        refine List.singleton_sublist.mpr ?_
        rw [mem_dedupFirstAux]
        refine ⟨List.mem_append_right _ hy2, ?_⟩
        intro hcon
        rcases List.mem_cons.mp hcon with hc | hc
        · exact hyh hc
        · exact hys hc
      · have hxt : x ∈ t := by
          rcases List.mem_cons.mp hx with rfl | hm
          · exact absurd rfl hxh
          · exact hm
        refine List.Sublist.trans ?_ (List.sublist_cons_self h _)
        refine ih l2 (h :: seen) x y hxt ?_ (fun hc => hy (List.mem_cons_of_mem _ hc)) ?_ hy2
        · intro hcon
          rcases List.mem_cons.mp hcon with hc | hc
          · exact hxh hc
          · exact hxs hc
        · intro hcon
          rcases List.mem_cons.mp hcon with hc | hc
          · exact hyh hc
          · exact hys hc

theorem dedupFirst_order (l1 l2 : List String) (x y : String)
    (hx : x ∈ l1) (hy : y ∉ l1) (hy2 : y ∈ l2) :
    [x, y].Sublist (dedupFirst (l1 ++ l2)) :=
  dedupFirstAux_order l1 l2 [] x y hx (by simp) hy (by simp) hy2

theorem scanSetIds_mem_cons (c : Char) (cs : List Char) (i : String)
    (h : i ∈ scanSetIds cs) : i ∈ scanSetIds (c :: cs) := by
  rw [scanSetIds]
  split
  · split
    · exact h
    · exact List.mem_cons_of_mem _ h
  · exact h

/-- Soundness of the scanner: every returned identifier is a nonempty digit
string occurring in the text right after the set-URL marker. -/
theorem takeWhile_dropWhile_nil (p : Char → Bool) (l : List Char) :
    ((l.dropWhile p).takeWhile p) = [] := by
  induction l with
  | nil => rfl
  | cons c t ih =>
    rw [List.dropWhile_cons]
    by_cases h : p c
    · rw [if_pos h]
      exact ih
    · rw [if_neg h]
      simp [List.takeWhile_cons, h]

/-- Soundness of the scanner, with maximality: every returned identifier
is a nonempty digit run right after a marker occurrence, and the run is
maximal (the text right after it starts with a non-digit or is empty). -/
theorem scanSetIds_sound (l : List Char) (i : String) (h : i ∈ scanSetIds l) :
    ∃ l1 ds l2 : List Char, i = ds.asString ∧ ds ≠ [] ∧ ds.all Char.isDigit ∧
      l2.takeWhile Char.isDigit = [] ∧ l = l1 ++ (setUrlMarker ++ (ds ++ l2)) := by
  induction l with
  | nil => simp [scanSetIds] at h
  | cons c cs ih =>
    rw [scanSetIds] at h
    by_cases hpre : setUrlMarker.isPrefixOf (c :: cs)
    · rw [if_pos hpre] at h
      set ds := ((c :: cs).drop setUrlMarker.length).takeWhile Char.isDigit with hds
      by_cases hempty : ds.isEmpty
      · rw [if_pos hempty] at h
        obtain ⟨l1', ds', l2', h1, h2, h3, h4, h5⟩ := ih h
        exact ⟨c :: l1', ds', l2', h1, h2, h3, h4, by rw [List.cons_append, ← h5]⟩
      · rw [if_neg hempty] at h
        rcases List.mem_cons.mp h with rfl | hrest
        · refine ⟨[], ds, ((c :: cs).drop setUrlMarker.length).dropWhile Char.isDigit,
            rfl, by simpa [List.isEmpty_iff] using hempty, ?_, ?_, ?_⟩
          · exact List.all_eq_true.mpr (fun x hx => List.mem_takeWhile_imp hx)
          · exact takeWhile_dropWhile_nil _ _
          · have hsplit : c :: cs = setUrlMarker ++ (c :: cs).drop setUrlMarker.length := by
              obtain ⟨t, ht⟩ := List.isPrefixOf_iff_prefix.mp hpre
              rw [← ht, List.drop_left]
            rw [List.nil_append, hds, List.takeWhile_append_dropWhile, ← hsplit]
        · obtain ⟨l1', ds', l2', h1, h2, h3, h4, h5⟩ := ih hrest
          exact ⟨c :: l1', ds', l2', h1, h2, h3, h4, by rw [List.cons_append, ← h5]⟩
    · rw [if_neg hpre] at h
      obtain ⟨l1', ds', l2', h1, h2, h3, h4, h5⟩ := ih h
      exact ⟨c :: l1', ds', l2', h1, h2, h3, h4, by rw [List.cons_append, ← h5]⟩

theorem keywordTier_cases (s : String) :
    keywordTier s = none ∨ keywordTier s = some 0 ∨ keywordTier s = some 1 ∨
      keywordTier s = some 2 := by
  unfold keywordTier
  split_ifs <;> simp

theorem keywordTier_le_two (s : String) (n : Nat) (h : keywordTier s = some n) :
    n ≤ 2 := by
  rcases keywordTier_cases s with h' | h' | h' | h' <;> rw [h'] at h <;>
    simp_all <;> omega

theorem keywordTier_getD_le (s : String) : (keywordTier s).getD 3 ≤ 3 := by
  rcases keywordTier_cases s with h | h | h | h <;> simp [h]

theorem assetTier_le_three (a : Asset) : assetTier a ≤ 3 := by
  unfold assetTier
  split
  · split
    · next _ _ n heq => exact Nat.le_trans (keywordTier_le_two _ _ heq) (by omega)
    · split
      · exact keywordTier_getD_le _
      · exact Nat.le_refl 3
  · split
    · exact keywordTier_getD_le _
    · exact Nat.le_refl 3

theorem mem_rankedPairs (assets : List Asset) (p : Nat × Nat × String) :
    p ∈ rankedPairs assets ↔
      ∃ a ∈ assets, deriveId a = some p.2.2 ∧ assetTier a = p.1 ∧
        sizeKey a = p.2.1 := by
  simp only [rankedPairs, List.mem_filterMap, Option.map_eq_some']
  constructor
  · rintro ⟨a, ha, i, hi, heq⟩
    subst heq
    exact ⟨a, ha, hi, rfl, rfl⟩
  · rintro ⟨a, ha, hi, htier, hsize⟩
    exact ⟨a, ha, p.2.2, hi, by rw [htier, hsize]⟩

theorem insertBySize_spec (x : Nat × Nat × String)
    (l : List (Nat × Nat × String)) :
    ∃ u v, l = u ++ v ∧ insertBySize x l = u ++ x :: v ∧
      ∀ z ∈ u, x.2.1 < z.2.1 := by
  induction l with
  | nil => exact ⟨[], [], rfl, rfl, by simp⟩
  | cons q rest ih =>
    by_cases h : x.2.1 < q.2.1
    · obtain ⟨u, v, h1, h2, h3⟩ := ih
      refine ⟨q :: u, v, by rw [List.cons_append, ← h1], ?_, ?_⟩
      · rw [insertBySize, if_pos h, h2, List.cons_append]
      · intro z hz
        rcases List.mem_cons.mp hz with rfl | hz'
        · exact h
        · exact h3 z hz'
    · exact ⟨[], q :: rest, rfl, by rw [insertBySize, if_neg h, List.nil_append],
        by simp⟩

theorem sortBySize_perm (l : List (Nat × Nat × String)) :
    (sortBySize l).Perm l := by
  induction l with
  | nil => exact List.Perm.refl _
  | cons x rest ih =>
    rw [sortBySize]
    obtain ⟨u, v, h1, h2, _⟩ := insertBySize_spec x (sortBySize rest)
    rw [h2]
    refine List.Perm.trans List.perm_middle ?_
    rw [← h1]
    exact ih.cons x

theorem mem_tierBlock (ps : List (Nat × Nat × String)) (v : Nat)
    (p : Nat × Nat × String) :
    p ∈ tierBlock ps v ↔ p ∈ ps ∧ p.1 = v := by
  rw [tierBlock, (sortBySize_perm _).mem_iff, List.mem_filter]
  simp

theorem mem_tierConcat (ps : List (Nat × Nat × String))
    (p : Nat × Nat × String) :
    p ∈ tierConcat ps ↔ p ∈ ps ∧ p.1 ≤ 3 := by
  simp only [tierConcat, List.mem_append, mem_tierBlock]
  constructor
  · rintro (((⟨h, h'⟩ | ⟨h, h'⟩) | ⟨h, h'⟩) | ⟨h, h'⟩) <;> exact ⟨h, by omega⟩
  · rintro ⟨h, hle⟩
    have h03 : p.1 = 0 ∨ p.1 = 1 ∨ p.1 = 2 ∨ p.1 = 3 := by omega
    rcases h03 with h' | h' | h' | h'
    · exact Or.inl (Or.inl (Or.inl ⟨h, h'⟩))
    · exact Or.inl (Or.inl (Or.inr ⟨h, h'⟩))
    · exact Or.inl (Or.inr ⟨h, h'⟩)
    · exact Or.inr ⟨h, h'⟩

theorem pick_best_asset_mem (assets : List Asset) (i : String) :
    i ∈ pick_best_asset assets ↔ ∃ a ∈ assets, deriveId a = some i := by
  rw [pick_best_asset, mem_dedupFirst]
  simp only [List.mem_map]
  constructor
  · rintro ⟨p, hp, rfl⟩
    obtain ⟨a, ha, hid, _, _⟩ :=
      (mem_rankedPairs _ _).mp ((mem_tierConcat _ _).mp hp).1
    exact ⟨a, ha, hid⟩
  · rintro ⟨a, ha, hid⟩
    refine ⟨(assetTier a, sizeKey a, i), ?_, rfl⟩
    refine (mem_tierConcat _ _).mpr ⟨?_, assetTier_le_three a⟩
    exact (mem_rankedPairs _ _).mpr ⟨a, ha, hid, rfl, rfl⟩

theorem takeWhile_append_of_all {p : Char → Bool} (ds l2 : List Char)
    (hall : ds.all p) (hstop : l2.takeWhile p = []) :
    (ds ++ l2).takeWhile p = ds := by
  induction ds with
  | nil => simpa using hstop
  | cons d ds' ih =>
    simp only [List.all_cons, Bool.and_eq_true] at hall
    simp only [List.cons_append, List.takeWhile_cons, hall.1, ih hall.2, if_true]

/-- Completeness of the scanner: every maximal digit run following an
occurrence of the set-URL marker is returned. -/
theorem scanSetIds_complete (l1 ds l2 : List Char)
    (hne : ds ≠ []) (hdig : ds.all Char.isDigit)
    (hstop : l2.takeWhile Char.isDigit = []) :
    ds.asString ∈ scanSetIds (l1 ++ (setUrlMarker ++ (ds ++ l2))) := by
  induction l1 with
  | nil =>
    rw [List.nil_append]
    have hcons : setUrlMarker ++ (ds ++ l2) =
        'm' :: ("ediux.pro/sets/".toList ++ (ds ++ l2)) := by rfl
    rw [hcons, scanSetIds, ← hcons]
    have hpre : setUrlMarker.isPrefixOf (setUrlMarker ++ (ds ++ l2)) = true :=
      List.isPrefixOf_iff_prefix.mpr ⟨ds ++ l2, rfl⟩
    rw [if_pos hpre, List.drop_left, takeWhile_append_of_all ds l2 hdig hstop]
    rw [if_neg (by simpa [List.isEmpty_iff] using hne)]
    exact List.mem_cons_self _ _
  | cons a l1' ih =>
    exact scanSetIds_mem_cons a _ _ ih

/-! ## Facts about lookup, insertion and field absence -/
theorem yamlLookup_cons (k : String) (v : Yaml) (es : List (String × Yaml))
    (f : String) :
    yamlLookup ((k, v) :: es) f = if k = f then some v else yamlLookup es f := by
  by_cases h : k = f <;> simp [yamlLookup, List.find?_cons, h]

theorem yamlLookup_append (es es' : List (String × Yaml)) (k : String) :
    yamlLookup (es ++ es') k = (yamlLookup es k).or (yamlLookup es' k) := by
  simp only [yamlLookup, List.find?_append]
  cases List.find? (fun e => decide (e.1 = k)) es <;> simp

theorem yamlLookup_adds (adds : List (String × String)) (f : String)
    (h : f ∉ adds.map (fun a => a.1)) :
    yamlLookup (adds.map (fun a => (a.1, Yaml.str a.2))) f = none := by
  induction adds with
  | nil => rfl
  | cons a rest ih =>
    simp only [List.map_cons, List.mem_cons] at h
    push_neg at h
    rw [List.map_cons, yamlLookup_cons, if_neg (fun hc => h.1 hc.symm)]
    exact ih (by simpa using h.2)

theorem yamlLookup_adds_isStr (adds : List (String × String)) (k : String)
    (w : Yaml) (h : yamlLookup (adds.map (fun a => (a.1, Yaml.str a.2))) k = some w) :
    ∃ s, w = Yaml.str s := by
  induction adds with
  | nil => simp [yamlLookup] at h
  | cons a rest ih =>
    rw [List.map_cons, yamlLookup_cons] at h
    by_cases h1 : a.1 = k
    · rw [if_pos h1] at h
      exact ⟨a.2, (Option.some.inj h).symm⟩
    · rw [if_neg h1] at h
      exact ih h

theorem yamlLookup_update (es : List (String × Yaml)) (k k' : String)
    (g : Yaml → Yaml) :
    yamlLookup (es.map (fun e => if e.1 = k then (e.1, g e.2) else e)) k' =
      if k' = k then (yamlLookup es k).map g else yamlLookup es k' := by
  induction es with
  | nil => by_cases h : k' = k <;> simp [yamlLookup, h]
  | cons e rest ih =>
    obtain ⟨ek, ev⟩ := e
    by_cases h1 : ek = k <;> by_cases h2 : ek = k' <;>
      simp_all [List.map_cons, yamlLookup_cons]
    rw [if_neg (fun hc : k' = k => h2 hc.symm),
      if_neg (fun hc : k' = k => h2 hc.symm)]

theorem hasFieldAt_map_cons (es : List (String × Yaml)) (k : String)
    (ks : List String) (f : String) :
    hasFieldAt (Yaml.map es) (k :: ks) f =
      match yamlLookup es k with
      | some v => hasFieldAt v ks f
      | none => false := by
  cases h : yamlLookup es k <;> simp [hasFieldAt, resolvePath, h]

theorem hasFieldAt_str (s : String) (p : List String) (f : String) :
    hasFieldAt (Yaml.str s) p f = false := by
  cases p <;> simp [hasFieldAt, resolvePath]

/-- Inserting string-valued fields at path `q` cannot make field `f`
appear at path `p`, unless the insertion happens exactly at `p` and
carries `f` itself. -/
theorem hasFieldAt_insertAt (q : List String) :
    ∀ (y : Yaml) (p : List String) (adds : List (String × String)) (f : String),
      hasFieldAt y p f = false →
      (q ≠ p ∨ f ∉ adds.map (fun a => a.1)) →
      hasFieldAt (insertAt y q adds) p f = false := by
  induction q with
  | nil =>
    intro y p adds f hy hq
    cases y with
    | map es =>
      rw [insertAt]
      cases p with
      | nil =>
        have hf : f ∉ adds.map (fun a => a.1) := by
          rcases hq with h | h
          · exact absurd rfl h
          · exact h
        simp only [hasFieldAt, resolvePath] at hy ⊢
        rw [yamlLookup_append, yamlLookup_adds adds f hf]
        cases h : yamlLookup es f
        · simp [h]
        · rw [h] at hy; simp at hy
      | cons k ks =>
        rw [hasFieldAt_map_cons] at hy ⊢
        rw [yamlLookup_append]
        cases h : yamlLookup es k with
        | some v =>
          rw [h] at hy
          simpa using hy
        | none =>
          rw [h] at hy
          cases h2 : yamlLookup (adds.map (fun a => (a.1, Yaml.str a.2))) k with
          | none => simp [h2]
          | some w =>
            obtain ⟨s, rfl⟩ := yamlLookup_adds_isStr adds k w h2
            simp [h2, hasFieldAt_str]
    | str s => exact hy
    | int n => exact hy
    | bool b => exact hy
    | null => exact hy
    | arr xs => exact hy
  | cons j qs ih =>
    intro y p adds f hy hq
    cases y with
    | map es =>
      rw [insertAt]
      cases p with
      | nil =>
        simp only [hasFieldAt, resolvePath] at hy ⊢
        rw [yamlLookup_update es j f (fun v => insertAt v qs adds)]
        by_cases hfj : f = j
        · rw [if_pos hfj]
          subst hfj
          cases h : yamlLookup es f
          · simp
          · rw [h] at hy; simp at hy
        · rw [if_neg hfj]; exact hy
      | cons k ks =>
        rw [hasFieldAt_map_cons] at hy ⊢
        rw [yamlLookup_update es j k (fun v => insertAt v qs adds)]
        by_cases hkj : k = j
        · rw [if_pos hkj]
          subst hkj
          cases h : yamlLookup es k with
          | none => simp
          | some v =>
            rw [h] at hy
            simp only [Option.map_some']
            refine ih v ks adds f hy ?_
            rcases hq with h' | h'
            · left
              intro hcon
              exact h' (by rw [hcon])
            · right
              exact h'
        · rw [if_neg hkj]
          exact hy
    | str s => exact hy
    | int n => exact hy
    | bool b => exact hy
    | null => exact hy
    | arr xs => exact hy

/-- Applying a batch of changes none of which inserts field `f` at path
`p` keeps `f` absent at `p`. -/
theorem hasFieldAt_applyAdds (cs : List Change) :
    ∀ (doc : Yaml) (p : List String) (f : String),
      hasFieldAt doc p f = false →
      (∀ c ∈ cs, ("metadata" :: c.path) = p → f ∉ c.add.map (fun a => a.1)) →
      hasFieldAt (applyAdds doc cs) p f = false := by
  induction cs with
  | nil => intro doc p f h _; exact h
  | cons c rest ih =>
    intro doc p f h hc
    rw [applyAdds, List.foldl_cons]
    refine ih (insertAt doc ("metadata" :: c.path) c.add) p f ?_ ?_
    · refine hasFieldAt_insertAt _ doc p c.add f h ?_
      by_cases hp : ("metadata" :: c.path) = p
      · exact Or.inr (hc c (List.mem_cons_self c rest) hp)
      · exact Or.inl hp
    · intro c' hm
      exact hc c' (List.mem_cons_of_mem _ hm)

theorem fsGet_fsSet_same (fs : FS) (p : String) (c : FileContent) :
    fsGet (fsSet fs p c) p = some c := by
  simp [fsGet, fsSet, List.find?_cons]

theorem files_of_backup_branch (st : FState) (b : Bool) (n : String) (doc : Yaml) :
    (if b then addBackup st n doc else st).files = st.files := by
  cases b <;> rfl

/-! ## The claims -/

/-- C1: for every change set whose target file exists and parses, if
apply_changes runs with apply and create_backup, the backup succeeds and
the subsequent write of the patched document fails, the file's final
on-disk content equals its original pre-change content — the original is
restored from the backup, never left empty or partial (spec section 4.6
step 6). -/
theorem C1_write_failure_restores_original (env : ApplyEnv) (st : FState)
    (cset : ChangeSet) (doc : Yaml) (rpo : Bool)
    (hread : fsGet st.files cset.file = some (FileContent.parsed doc))
    (hbak : env.backupFails cset.file = false)
    (hwrite : env.writeFails cset.file = true) :
    fsGet (apply_changes env st [cset] true true rpo).files cset.file =
      some (FileContent.parsed doc) := by
  rw [apply_changes, List.foldl_cons, List.foldl_nil, applyChangeSet]
  rw [if_neg (by simp)]
  rw [hread]
  dsimp only
  by_cases hemp :
      ((cset.changes.filter (applicableChange doc rpo)).isEmpty : Bool) = true
  · rw [if_pos hemp]
    exact hread
  · rw [if_neg hemp]
    have hbm : (true && !(env.backupFails cset.file)) = true := by
      rw [hbak]; rfl
    rw [hbm, doWrite]
    by_cases hschema : env.schemaRejects
        (applyAdds doc (cset.changes.filter (applicableChange doc rpo))) = true
    · rw [if_pos hschema, if_pos rfl, addBackup]
      exact hread
    · rw [if_neg hschema, if_pos hwrite, if_pos rfl, if_pos rfl, addBackup]
      exact fsGet_fsSet_same _ _ _

/-- C1 witness: the test suite's backup/restore scenario: the sample file
holds the sample document, the write fails after a successful backup, and
the final content equals the original. -/
theorem C1_write_failure_restores_original_witness :
    fsGet (apply_changes sampleEnvWriteFail sampleState
        [⟨"test.yml", [sampleChangeOk]⟩] true true false).files "test.yml" =
      some (FileContent.parsed sampleDoc) :=
  C1_write_failure_restores_original sampleEnvWriteFail sampleState
    ⟨"test.yml", [sampleChangeOk]⟩ sampleDoc false rfl rfl rfl

/-- C2: for every list of change sets, apply_changes with apply=false
performs no filesystem mutation at all: the state (hence every target
file's content) is unchanged (spec section 4.6 step 1). -/
theorem C2_dry_run_no_mutation (env : ApplyEnv) (st : FState)
    (csets : List ChangeSet) (cb rpo : Bool) :
    apply_changes env st csets false cb rpo = st := by
  induction csets generalizing st with
  | nil => rfl
  | cons c t ih =>
    rw [apply_changes, List.foldl_cons]
    have hstep : applyChangeSet env st c false cb rpo = st := rfl
    rw [hstep]
    exact ih st

/-- C3: with require_probe_ok, a proposed change whose recorded probe
status does not indicate HTTP success is skipped: whatever parsed content
the target file holds after apply_changes, the change's target field is
still absent at its path, provided the write itself does not fail and no
other change that passes re-validation inserts that same field at that
same path (spec section 4.6 step 3). -/
theorem C3_failed_probe_not_applied (env : ApplyEnv) (st : FState)
    (cset : ChangeSet) (c : Change) (doc : Yaml) (f : String) (cb : Bool)
    (d : Yaml)
    (hread : fsGet st.files cset.file = some (FileContent.parsed doc))
    (hc : c ∈ cset.changes)
    (hprobe : probeOk c.probe = false)
    (hf : f ∈ c.add.map (fun a => a.1))
    (habsent : hasFieldAt doc ("metadata" :: c.path) f = false)
    (hwrite : env.writeFails cset.file = false)
    (hno : ∀ c' ∈ cset.changes, applicableChange doc true c' = true →
      ("metadata" :: c'.path) = ("metadata" :: c.path) →
      f ∉ c'.add.map (fun a => a.1))
    (hfinal : fsGet (apply_changes env st [cset] true cb true).files cset.file =
      some (FileContent.parsed d)) :
    hasFieldAt d ("metadata" :: c.path) f = false := by
  rw [apply_changes, List.foldl_cons, List.foldl_nil, applyChangeSet] at hfinal
  rw [if_neg (by simp)] at hfinal
  rw [hread] at hfinal
  dsimp only at hfinal
  by_cases hemp :
      ((cset.changes.filter (applicableChange doc true)).isEmpty : Bool) = true
  · rw [if_pos hemp] at hfinal
    rw [hread] at hfinal
    cases FileContent.parsed.inj (Option.some.inj hfinal)
    exact habsent
  · rw [if_neg hemp, doWrite] at hfinal
    by_cases hschema : env.schemaRejects
        (applyAdds doc (cset.changes.filter (applicableChange doc true))) = true
    · rw [if_pos hschema] at hfinal
      rw [files_of_backup_branch, hread] at hfinal
      cases FileContent.parsed.inj (Option.some.inj hfinal)
      exact habsent
    · rw [if_neg hschema, if_neg (by rw [hwrite]; exact Bool.false_ne_true),
        files_of_backup_branch, fsGet_fsSet_same] at hfinal
      cases FileContent.parsed.inj (Option.some.inj hfinal)
      refine hasFieldAt_applyAdds _ doc _ f habsent ?_
      intro c' hm hpath
      have hmem := List.mem_filter.mp hm
      exact hno c' hmem.1 hmem.2 hpath

/-- C3 witness: the test suite's scenario: a single change carrying a 404
probe under require_probe_ok leaves `url_poster` absent at
`metadata.123456`. -/
theorem C3_failed_probe_not_applied_witness :
    hasFieldAt sampleDoc ("metadata" :: ["123456"]) "url_poster" = false :=
  C3_failed_probe_not_applied sampleEnvOk sampleState
    ⟨"test.yml", [sampleChange404]⟩ sampleChange404 sampleDoc "url_poster"
    true sampleDoc rfl (List.mem_cons_self _ _) rfl (by decide) (by decide)
    rfl (by decide) rfl

/-- C4: probe-cache round-trip and TTL: after set_cached_probe, an
immediate get_cached_probe within max_age returns the stored status and
body; an entry whose age exceeds max_age yields null — silently, and
idempotently, since the embedded get is a pure observer that never deletes
the stale row (spec section 4.2). -/
theorem C4_cache_roundtrip_and_ttl :
    (∀ (c : Cache) (now later maxAge status : Nat) (url body : String),
      later - now ≤ maxAge →
      get_cached_probe (set_cached_probe c now url status body) later url maxAge =
        some ⟨url, now, status, body⟩) ∧
    (∀ (c : Cache) (now maxAge : Nat) (url : String) (e : CacheEntry),
      cacheLookup c url = some e → maxAge < now - e.timestamp →
      get_cached_probe c now url maxAge = none) := by
  constructor
  · intro c now later maxAge status url body hage
    rw [get_cached_probe]
    have hl : cacheLookup (set_cached_probe c now url status body) url =
        some ⟨url, now, status, body⟩ := by
      simp [cacheLookup, set_cached_probe, List.find?_cons]
    rw [hl]
    exact if_pos hage
  · intro c now maxAge url e hl hage
    rw [get_cached_probe, hl]
    exact if_neg (by omega)

/-- C4 witness: `set(url, 200, "OK")` then an immediate `get` with
max_age 3600 returns status 200 and body OK; a row written at time 1000
read at time 1001 with max_age 0 yields null. -/
theorem C4_cache_roundtrip_and_ttl_witness :
    get_cached_probe (set_cached_probe [] 1000 "https://example.com/test.jpg"
        200 "OK") 1000 "https://example.com/test.jpg" 3600 =
      some ⟨"https://example.com/test.jpg", 1000, 200, "OK"⟩ ∧
    get_cached_probe
        [("https://example.com/test.jpg",
          ⟨"https://example.com/test.jpg", 1000, 200, "OK"⟩)]
        1001 "https://example.com/test.jpg" 0 = none :=
  ⟨C4_cache_roundtrip_and_ttl.1 [] 1000 1000 3600 200
      "https://example.com/test.jpg" "OK" (by decide),
    C4_cache_roundtrip_and_ttl.2
      [("https://example.com/test.jpg",
        ⟨"https://example.com/test.jpg", 1000, 200, "OK"⟩)]
      1001 0 "https://example.com/test.jpg"
      ⟨"https://example.com/test.jpg", 1000, 200, "OK"⟩ rfl (by decide)⟩

/-- C5: the ranker returns only identifiers derivable from the input,
never repeats an identifier, includes every derivable identifier (so
assets with no derivable id are excluded, contributing nothing), and maps
empty input to empty output (spec section 4.1). -/
theorem C5_ranker_ids :
    pick_best_asset [] = [] ∧
    (∀ assets : List Asset, (pick_best_asset assets).Nodup) ∧
    (∀ (assets : List Asset) (i : String), i ∈ pick_best_asset assets →
      ∃ a ∈ assets, deriveId a = some i) ∧
    (∀ (assets : List Asset) (a : Asset) (i : String), a ∈ assets →
      deriveId a = some i → i ∈ pick_best_asset assets) := by
  refine ⟨rfl, fun _ => dedupFirst_nodup _, ?_, ?_⟩
  · intro assets i h
    exact (pick_best_asset_mem _ _).mp h
  · intro assets a i ha hd
    exact (pick_best_asset_mem _ _).mpr ⟨a, ha, hd⟩

/-- C5 witness: on the test suite's title-card/poster pair, `title-1` in
the output is derivable from the input, and the poster asset's identifier
appears in the output. -/
theorem C5_ranker_ids_witness :
    (∃ a ∈ sampleAssets, deriveId a = some "title-1") ∧
    "poster-1" ∈ pick_best_asset sampleAssets :=
  ⟨C5_ranker_ids.2.2.1 sampleAssets "title-1" (by decide),
    C5_ranker_ids.2.2.2 sampleAssets
      ⟨some "poster-1", some "poster", some "poster.jpg", Yaml.map []⟩
      "poster-1" (List.mem_cons_of_mem _ (List.mem_cons_self _ _)) rfl⟩

/-- C7: find_set_ids_in_text returns exactly the digit identifiers of
MediUX set URLs occurring in the text, in first-seen order with
duplicates removed: no duplicates; every returned id is a maximal
nonempty digit run right after the hostname-qualified `/sets/` marker
(the text after the run starts with a non-digit or ends); every such
maximal run is returned; an identifier scanned strictly before the first
scan occurrence of another precedes it in the output; the same URL twice
yields a one-element list, two distinct URLs keep scan order, and no
matches yield the empty list (spec section 4.4). -/
theorem C7_find_set_ids_exact :
    (∀ t : String, (find_set_ids_in_text t).Nodup) ∧
    (∀ t i, i ∈ find_set_ids_in_text t →
      ∃ l1 ds l2 : List Char, i = ds.asString ∧ ds ≠ [] ∧
        ds.all Char.isDigit ∧ l2.takeWhile Char.isDigit = [] ∧
        t.toList = l1 ++ (setUrlMarker ++ (ds ++ l2))) ∧
    (∀ l1 ds l2 : List Char, ds ≠ [] → ds.all Char.isDigit →
      l2.takeWhile Char.isDigit = [] →
      ds.asString ∈ find_set_ids_in_text
        (String.mk (l1 ++ (setUrlMarker ++ (ds ++ l2))))) ∧
    (∀ (t : String) (u v : List String) (x y : String),
      scanSetIds t.toList = u ++ v → x ∈ u → y ∉ u → y ∈ v →
      [x, y].Sublist (find_set_ids_in_text t)) ∧
    find_set_ids_in_text "url_poster: https://mediux.pro/sets/12345" =
      ["12345"] ∧
    find_set_ids_in_text
      "a https://mediux.pro/sets/12345 b https://mediux.pro/sets/12345" =
      ["12345"] ∧
    find_set_ids_in_text
      "a https://mediux.pro/sets/12345 b https://mediux.pro/sets/67890" =
      ["12345", "67890"] ∧
    find_set_ids_in_text "url_poster: https://example.com/image.jpg" = [] := by
  refine ⟨fun _ => dedupFirst_nodup _, ?_, ?_, ?_,
    by decide, by decide, by decide, by decide⟩
  · intro t i h
    exact scanSetIds_sound _ _ ((mem_dedupFirst _ _).mp h)
  · intro l1 ds l2 hne hdig hstop
    exact (mem_dedupFirst _ _).mpr (scanSetIds_complete l1 ds l2 hne hdig hstop)
  · intro t u v x y hsplit hx hy hyv
    rw [find_set_ids_in_text, hsplit]
    exact dedupFirst_order u v x y hx hy hyv

/-- C7 witness: the digit run 12345 after the marker in concrete text is
returned, and an id scanned first precedes one scanned later. -/
theorem C7_find_set_ids_exact_witness :
    ("12345".toList).asString ∈ find_set_ids_in_text
      (String.mk ("x ".toList ++ (setUrlMarker ++ ("12345".toList ++ "/".toList)))) ∧
    ["12345", "67890"].Sublist (find_set_ids_in_text
      "a https://mediux.pro/sets/12345 b https://mediux.pro/sets/67890") :=
  ⟨C7_find_set_ids_exact.2.2.1 "x ".toList "12345".toList "/".toList
      (by decide) (by decide) (by decide),
    C7_find_set_ids_exact.2.2.2.1
      "a https://mediux.pro/sets/12345 b https://mediux.pro/sets/67890"
      ["12345"] ["67890"] "12345" "67890" (by decide) (by decide) (by decide)
      (by decide)⟩

/-- C8: any transport error, non-success HTTP status or JSON-decode
failure makes fetch_set_assets return the empty list; the embedded
function is total, so no exception reaches the caller (spec section 4.3).
-/
theorem C8_fetch_failures_empty :
    (∀ msg : String, fetch_set_assets (NetResult.netError msg) = []) ∧
    (∀ (s : Nat) (body : Option Yaml), httpSuccess s = false →
      fetch_set_assets (NetResult.response s body) = []) ∧
    (∀ s : Nat, fetch_set_assets (NetResult.response s none) = []) := by
  refine ⟨fun _ => rfl, ?_, ?_⟩
  · intro s body h
    simp [fetch_set_assets, h]
  · intro s
    cases h : httpSuccess s <;> simp [fetch_set_assets, h]

/-- C8 witness: a 404 listing response yields the empty list. -/
theorem C8_fetch_failures_empty_witness :
    fetch_set_assets (NetResult.response 404 (some (Yaml.str "Not Found"))) = [] :=
  C8_fetch_failures_empty.2.1 404 (some (Yaml.str "Not Found")) (by decide)

/-- C9: the planner's two failure signals are distinct: a missing file
raises (the error outcome), while undecodable content, unparsable content
or a document with no recognizable metadata section return null (spec
sections 4.5 and 7). -/
theorem C9_planner_distinct_signals :
    (∀ (file apiBase : String) (fetch : String → List Asset)
      (probe : String → ProbeInfo),
      propose_changes_for_file file FileRead.missing fetch probe apiBase =
        Except.error "FileNotFoundError") ∧
    (∀ (file apiBase : String) (fetch : String → List Asset)
      (probe : String → ProbeInfo),
      propose_changes_for_file file FileRead.undecodable fetch probe apiBase =
        Except.ok none) ∧
    (∀ (file raw apiBase : String) (fetch : String → List Asset)
      (probe : String → ProbeInfo),
      propose_changes_for_file file (FileRead.unparsable raw) fetch probe
        apiBase = Except.ok none) ∧
    (∀ (file raw apiBase : String) (doc : Yaml) (fetch : String → List Asset)
      (probe : String → ProbeInfo), metadataSection doc = none →
      propose_changes_for_file file (FileRead.parsed raw doc) fetch probe
        apiBase = Except.ok none) := by
  refine ⟨fun _ _ _ _ => rfl, fun _ _ _ _ => rfl, fun _ _ _ _ _ => rfl, ?_⟩
  intro file raw apiBase doc fetch probe h
  simp [propose_changes_for_file, h]

/-- C9 witness: a parsed configuration-only document (no metadata section)
returns null, not an error. -/
theorem C9_planner_distinct_signals_witness :
    propose_changes_for_file "no_metadata.yml"
      (FileRead.parsed "config: x" (Yaml.map [("config", Yaml.str "x")]))
      (fun _ => []) (fun _ => ⟨none, ""⟩) "https://api.mediux.pro" =
      Except.ok none :=
  C9_planner_distinct_signals.2.2.2 "no_metadata.yml" "config: x"
    "https://api.mediux.pro" (Yaml.map [("config", Yaml.str "x")])
    (fun _ => []) (fun _ => ⟨none, ""⟩) rfl

/-- C10: the activity state observed through get_activity_snapshot:
touch_activity with increment n raises the count by exactly n, a zero
increment leaves the count unchanged while refreshing the timestamp, and
over any touch sequence driven by a non-decreasing clock both count and
timestamp are non-decreasing (spec section 5). -/
theorem C10_activity_counter :
    (∀ (a : Activity) (inc now : Nat),
      get_activity_snapshot (touch_activity a inc now) =
        ((get_activity_snapshot a).1 + inc, now)) ∧
    (∀ (a : Activity) (now : Nat),
      (get_activity_snapshot (touch_activity a 0 now)).1 =
        (get_activity_snapshot a).1 ∧
      (get_activity_snapshot (touch_activity a 0 now)).2 = now) ∧
    (∀ (a : Activity) (seq : List (Nat × Nat)),
      List.Chain' (fun x y => x ≤ y) (a.ts :: seq.map Prod.snd) →
      a.count ≤ (runTouches a seq).count ∧ a.ts ≤ (runTouches a seq).ts) := by
  refine ⟨fun a inc now => rfl, fun a now => ⟨rfl, rfl⟩, ?_⟩
  intro a seq
  induction seq generalizing a with
  | nil => intro _; exact ⟨le_refl _, le_refl _⟩
  | cons e rest ih =>
    intro hchain
    rw [List.map_cons, List.chain'_cons] at hchain
    have hrec := ih (touch_activity a e.1 e.2) hchain.2
    rw [runTouches]
    exact ⟨le_trans (Nat.le_add_right _ _) hrec.1,
      le_trans hchain.1 hrec.2⟩

/-- C10 witness: two touches at clock readings 11 and 12 starting from
count 0 at time 10 leave count and timestamp no smaller. -/
theorem C10_activity_counter_witness :
    (⟨0, 10⟩ : Activity).count ≤ (runTouches ⟨0, 10⟩ [(5, 11), (0, 12)]).count ∧
    (⟨0, 10⟩ : Activity).ts ≤ (runTouches ⟨0, 10⟩ [(5, 11), (0, 12)]).ts :=
  C10_activity_counter.2.2 ⟨0, 10⟩ [(5, 11), (0, 12)]
    (by norm_num [List.chain'_cons, List.chain'_singleton])

end KMR
